import Mathlib

/-!
Verification of the EEsizer core against its specification.

This file gives a shallow embedding, over exact rationals, of the parts of the
EEsizer code base that the checked properties talk about:

* `eesizer/analysis/parsers.py` and `eesizer/analysis/metrics.py`
  (waveform-table parsing and scalar metric extraction),
* `eesizer/analysis/oplog.py` (operating-point log parsing),
* `eesizer/netlist/patch.py` (atomic apply / revert and the syntax precheck),
* `eesizer/sim/netlist_builders.py` (control-block stripping and insertion),
* `eesizer/agents/orchestrator.py` (variant scoring and ranking),
* `eesizer/agents/optimizer.py` (the iteration loop with timeout handling).

Python floats are modelled as rationals.  The two transcendental functions the
metrics use, base-10 logarithm and complex argument, are modelled by computable
rational functions that are exact on the inputs every theorem below evaluates
them at (integer powers of ten for the logarithm, points on the real and
imaginary axes for the argument, perfect squares for the square root inside the
complex magnitude); away from those inputs the theorems only ever mention the
functions symbolically, on both sides of an equation, so the chosen off-domain
value is never relied upon.

External boundaries (the ngspice process, the LLM provider, the worker thread)
are modelled as explicit function parameters, mirroring the specification's own
treatment of them as opaque collaborators.
-/

namespace EEsizer

/-! ## Exact numeric helpers -/

/-- Worker for `pow10Exp`, structurally recursive on a fuel argument so that
it reduces in the kernel; the fuel never runs out when it starts at `n`,
since each step divides `n` by ten. -/
def pow10ExpAux (fuel : ℕ) (n : ℕ) : Option ℕ :=
  match fuel, n with
  | _, 0 => none
  | _, 1 => some 0
  | 0, _ + 2 => none
  | fuel + 1, m + 2 =>
    if (m + 2) % 10 = 0 then (pow10ExpAux fuel ((m + 2) / 10)).map (· + 1)
    else none

/-- Exponent `k` with `n = 10 ^ k`, when one exists. -/
def pow10Exp (n : ℕ) : Option ℕ := pow10ExpAux n n

/-- Base-10 logarithm on rationals, exact on integer powers of ten
(`log10 (10 ^ k) = k` and `log10 (1 / 10 ^ k) = -k`); the value elsewhere is
an arbitrary placeholder that no theorem in this file depends on (such values
only ever appear symbolically, on both sides of an equation). -/
def log10 (q : ℚ) : ℚ :=
  if q.den = 1 then
    match pow10Exp q.num.toNat with
    | some k => (k : ℚ)
    | none => 0
  else if q.num = 1 then
    match pow10Exp q.den with
    | some k => -(k : ℚ)
    | none => 0
  else 0

/-- Floor square root on naturals, written as a bounded search so that it
reduces in the kernel (the model only ever evaluates it on small inputs). -/
def natSqrtLin (n : ℕ) : ℕ :=
  (((List.range (n + 1)).filter (fun k => k * k ≤ n)).getLast?).getD 0

/-- Rational square root, exact on squares of rationals (in particular
`ratSqrt (x ^ 2) = abs x`); arbitrary placeholder elsewhere, never relied
upon (see `log10`). -/
def ratSqrt (q : ℚ) : ℚ :=
  if 0 ≤ q ∧ (natSqrtLin q.num.natAbs) ^ 2 = q.num.natAbs ∧ (natSqrtLin q.den) ^ 2 = q.den then
    (natSqrtLin q.num.natAbs : ℚ) / (natSqrtLin q.den : ℚ)
  else 0

/-- Magnitude of the complex number `re + i * im` (numpy `abs` on a complex
array element). Exact whenever `re ^ 2 + im ^ 2` is a square, in particular on
the real axis where it equals `abs re`. -/
def cAbs (re im : ℚ) : ℚ := ratSqrt (re ^ 2 + im ^ 2)

/-- Argument of the complex number `re + i * im` in degrees
(numpy `degrees (angle z)`). Exact on the axes — `angleDeg re 0 = 0` for
`0 ≤ re` (including numpy's convention `angle 0 = 0`), `180` for `re < 0`,
`±90` on the imaginary axis; placeholder elsewhere, never relied upon. -/
def angleDeg (re im : ℚ) : ℚ :=
  if im = 0 then (if re < 0 then 180 else 0)
  else if re = 0 then (if 0 < im then 90 else -90)
  else 0

/-- Binary maximum on rationals (Python `max(a, b)`), written out so that it
reduces in the kernel. -/
def qmax (a b : ℚ) : ℚ := if a ≤ b then b else a

/-- Binary minimum on rationals (Python `min(a, b)`). -/
def qmin (a b : ℚ) : ℚ := if a ≤ b then a else b

/-- Absolute value on rationals (`np.abs` on a float), written out so that it
reduces in the kernel. -/
def qabs (a : ℚ) : ℚ := if a < 0 then -a else a

/-- Model of `np.isclose(a, b, atol = atol)` with numpy's default relative
tolerance `rtol = 1e-5`: true iff `|a - b| ≤ atol + rtol * |b|`. -/
def npIsClose (a b atol : ℚ) : Bool :=
  decide (qabs (a - b) ≤ atol + (1 / 100000) * qabs b)

/-- The floor `1e-30` used by the metric extractors. -/
def eps30 : ℚ := 1 / 10 ^ 30

/-- First index of the minimum of a list (`np.argmin`): ties broken towards
the earlier index, `0` on the empty list. -/
def argminIdx (l : List ℚ) : ℕ :=
  match l with
  | [] => 0
  | x :: xs =>
    (xs.foldl
      (fun (acc : ℕ × ℚ × ℕ) y =>
        if y < acc.2.1 then (acc.2.2, y, acc.2.2 + 1) else (acc.1, acc.2.1, acc.2.2 + 1))
      (0, x, 1)).1

/-- Maximum of a nonempty list (`np.max`); `0` on the empty list, which every
caller below guards against, mirroring the guard in the source. -/
def npMax : List ℚ → ℚ
  | [] => 0
  | x :: xs => xs.foldl qmax x

/-- Minimum of a nonempty list (`np.min`); `0` on the empty list (guarded). -/
def npMin : List ℚ → ℚ
  | [] => 0
  | x :: xs => xs.foldl qmin x

/-! ## Waveform arrays and `analysis/parsers.py`

`np.genfromtxt` returns a 0-d array for a one-value table, a 1-d array for a
single row or a single column, and a 2-d array otherwise.  The model takes the
array produced by a successful `np.genfromtxt` call directly; the input `none`
stands for any call in which `np.genfromtxt` raised (missing file, unreadable
file, unparsable table), the case `safe_genfromtxt` catches. -/

/-- A numpy array of floats as produced by `np.genfromtxt`. -/
inductive NpArray where
  | scalar (x : ℚ)
  | vec (xs : List ℚ)
  | mat (rows : List (List ℚ))
deriving DecidableEq

/-- Model of `safe_genfromtxt`: the caught-exception case (`none`) falls back
to `np.zeros((2, 2))`. -/
def safe_genfromtxt (file : Option NpArray) : NpArray :=
  match file with
  | none => NpArray.mat [[0, 0], [0, 0]]
  | some a => a

/-- Number of columns of a 2-d array (`data.shape[1]`); rows of a genuine
numpy 2-d array all have this length. -/
def npShape1 (rows : List (List ℚ)) : ℕ := (rows.headD []).length

/-- Column extraction `data[:, j]` on a 2-d array: raises `IndexError` when
`j` is not a valid column index. -/
def getCol (j : ℕ) (rows : List (List ℚ)) : Except String (List ℚ) :=
  if j < npShape1 rows then Except.ok (rows.map (fun r => r.getD j 0))
  else Except.error "IndexError: index is out of bounds"

/-- The reshape `data.reshape(1, -1)` applied when `data.ndim == 1`: a
nonempty 1-d array becomes a one-row 2-d array, the empty 1-d array raises
(numpy cannot reshape size 0 into `(1, -1)`); 0-d and 2-d arrays pass through
unchanged. -/
def reshapeRow (a : NpArray) : Except String NpArray :=
  match a with
  | NpArray.vec [] => Except.error "ValueError: cannot reshape array of size 0"
  | NpArray.vec xs => Except.ok (NpArray.mat [xs])
  | other => Except.ok other

/-- Model of `parse_ac_dat`: frequency column, then the complex samples
`real + i * imag` with the imaginary part taken from column 2 when the table
has more than two columns and zero otherwise.  Indexing a 0-d array raises,
as `data[:, 0]` does in numpy. -/
def parse_ac_dat (file : Option NpArray) : Except String (List ℚ × List (ℚ × ℚ)) := do
  let data := safe_genfromtxt file
  let data ← reshapeRow data
  match data with
  | NpArray.scalar _ => Except.error "IndexError: too many indices for array"
  | NpArray.vec _ => Except.error "unreachable: reshapeRow leaves no 1-d array"
  | NpArray.mat rows =>
    let freq ← getCol 0 rows
    let real ← getCol 1 rows
    let imag ← if 2 < npShape1 rows then getCol 2 rows
               else Except.ok (real.map (fun _ => (0 : ℚ)))
    Except.ok (freq, real.zip imag)

/-- Model of `parse_tran_dat`: time column, then the output column when the
table has more than one column and zeros otherwise. -/
def parse_tran_dat (file : Option NpArray) : Except String (List ℚ × List ℚ) := do
  let data := safe_genfromtxt file
  let data ← reshapeRow data
  match data with
  | NpArray.scalar _ => Except.error "IndexError: too many indices for array"
  | NpArray.vec _ => Except.error "unreachable: reshapeRow leaves no 1-d array"
  | NpArray.mat rows =>
    let t ← getCol 0 rows
    let out ← if 1 < npShape1 rows then getCol 1 rows
              else Except.ok (t.map (fun _ => (0 : ℚ)))
    Except.ok (t, out)

/-! ## `analysis/metrics.py` -/

/-- Model of `ac_gain_db_from_dat`. -/
def ac_gain_db_from_dat (file : Option NpArray) : Except String ℚ := do
  let (_f, v) ← parse_ac_dat file
  if v.length = 0 then Except.ok 0
  else
    let p := v.headD (0, 0)
    Except.ok (20 * log10 (qmax eps30 (cAbs p.1 p.2)))

/-- Model of `bandwidth_hz_from_dat`. -/
def bandwidth_hz_from_dat (file : Option NpArray) : Except String ℚ := do
  let (f, v) ← parse_ac_dat file
  if v.length = 0 then Except.ok 0
  else
    let p0 := v.headD (0, 0)
    let gain0 := 20 * log10 (qmax eps30 (cAbs p0.1 p0.2))
    let magDb := v.map (fun p => 20 * log10 (qmax eps30 (cAbs p.1 p.2)))
    let half := gain0 - 3
    let idx := (List.range magDb.length).filter (fun i => decide (half ≤ magDb.getD i 0))
    match idx with
    | [] => Except.ok 0
    | _ => Except.ok (f.getD ((idx.getLast?).getD 0) 0 - f.getD (idx.headD 0) 0)

/-- Model of `unity_bandwidth_hz_from_dat`. -/
def unity_bandwidth_hz_from_dat (file : Option NpArray) : Except String ℚ := do
  let (f, v) ← parse_ac_dat file
  if v.length = 0 then Except.ok 0
  else
    let magDb := v.map (fun p => 20 * log10 (qmax eps30 (cAbs p.1 p.2)))
    let idx := (List.range magDb.length).filter (fun i => decide ((0 : ℚ) ≤ magDb.getD i 0))
    match idx with
    | [] => Except.ok 0
    | _ => Except.ok (f.getD ((idx.getLast?).getD 0) 0 - f.getD (idx.headD 0) 0)

/-- Model of `phase_margin_deg_from_dat`. -/
def phase_margin_deg_from_dat (file : Option NpArray) : Except String ℚ := do
  let (_f, v) ← parse_ac_dat file
  if v.length = 0 then Except.ok 0
  else
    let magDb := v.map (fun p => 20 * log10 (qmax eps30 (cAbs p.1 p.2)))
    let phaseDeg := v.map (fun p => angleDeg p.1 p.2)
    let idx := argminIdx (magDb.map (fun x => qabs x))
    let phi := phaseDeg.getD idx 0
    let initial := phaseDeg.getD 0 0
    if npIsClose initial 180 15 then Except.ok phi
    else if npIsClose initial 0 15 then Except.ok (180 - qabs phi)
    else Except.ok 0

/-- Model of `tran_gain_db_from_dat` with its default `input_pp_v = 2e-6`. -/
def tran_gain_db_from_dat (file : Option NpArray) (inputPpV : ℚ := 2 / 10 ^ 6) :
    Except String ℚ := do
  let (_t, out) ← parse_tran_dat file
  if out.length = 0 then Except.ok 0
  else
    let vmax := npMax out
    let vmin := npMin out
    let vpp := qmax eps30 (vmax - vmin)
    Except.ok (20 * log10 (vpp / qmax inputPpV eps30))

/-! ## `netlist/patch.py`: filesystem model, apply / revert, syntax precheck

The filesystem is a flat map from paths to file contents (both sequences of
characters); directory creation is a no-op in this model.  The timestamp used
in backup and temporary names is threaded as an explicit parameter `ts`. -/

/-- A flat filesystem: path to optional content. -/
def FS : Type := List Char → Option (List Char)

/-- Point update of the filesystem (`none` deletes the file). -/
def fsUpdate (fs : FS) (p : List Char) (v : Option (List Char)) : FS :=
  fun q => if q = p then v else fs q

/-- Number of bytes of the UTF-8 encoding (`len(new_text.encode("utf-8"))`). -/
def utf8Len (s : List Char) : ℕ := (s.map Char.utf8Size).sum

/-- Model of `make_backup`: copy `path` to `path + ".bak." + ts`, raising
`FileNotFoundError` when `path` does not exist. -/
def make_backup (fs : FS) (path ts : List Char) : Except (List Char) (FS × List Char) :=
  match fs path with
  | none => Except.error path
  | some content =>
    let bak := path ++ ".bak.".toList ++ ts
    Except.ok (fsUpdate fs bak (some content), bak)

/-- Model of `apply_netlist_replacement`: back up the existing file if any
(inlining the `make_backup` copy, whose existence guard holds here), write the
new text to a temporary sibling, atomically rename it over `path`, and return
the new filesystem together with the backup path (empty when no file existed)
and the byte count written. -/
def apply_netlist_replacement (fs : FS) (path newText ts : List Char) :
    FS × List Char × ℕ :=
  let backupStep : FS × List Char :=
    match fs path with
    | some content =>
      (fsUpdate fs (path ++ ".bak.".toList ++ ts) (some content),
       path ++ ".bak.".toList ++ ts)
    | none => (fs, [])
  let tmp := path ++ ".tmp.".toList ++ ts
  let fs2 := fsUpdate backupStep.1 tmp (some newText)
  let fs3 := fsUpdate (fsUpdate fs2 tmp none) path (some newText)
  (fs3, backupStep.2, utf8Len newText)

/-- Model of `revert_backup`: copy the backup over `path`, raising
`FileNotFoundError` when the backup is missing. -/
def revert_backup (fs : FS) (path backupPath : List Char) : Except (List Char) FS :=
  match fs backupPath with
  | none => Except.error backupPath
  | some content => Except.ok (fsUpdate fs path (some content))

/-- Lower-casing of a character sequence (`str.lower`, ASCII fragment). -/
def lowerL (s : List Char) : List Char := s.map Char.toLower

/-- Worker for `countOcc`, structurally recursive on a fuel argument
(sufficient whenever the fuel starts at the length of `s`, since every step
consumes at least one character). -/
def countOccAux (pat : List Char) : ℕ → List Char → ℕ
  | _, [] => 0
  | 0, _ :: _ => 0
  | fuel + 1, c :: t =>
    if pat ≠ [] ∧ pat.isPrefixOf (c :: t) then
      1 + countOccAux pat fuel ((c :: t).drop pat.length)
    else countOccAux pat fuel t

/-- Number of non-overlapping occurrences of `pat` in `s`, scanning left to
right (`str.count`). -/
def countOcc (pat : List Char) (s : List Char) : ℕ := countOccAux pat s.length s

/-- Substring test (Python's `in` on strings). -/
def isInfixL (pat s : List Char) : Bool := decide (pat <:+: s)

/-- Model of `validate_netlist_syntax` (the source's local variables `lc`,
`cnt_control`, `cnt_endc` are written out). -/
def validate_netlist (txt : List Char) : Bool × String :=
  if txt.length < 10 then (false, "netlist too short")
  else if (0 < countOcc ".control".toList (lowerL txt) ∨
           0 < countOcc ".endc".toList (lowerL txt)) ∧
          countOcc ".control".toList (lowerL txt) ≠ countOcc ".endc".toList (lowerL txt) then
    (false, "mismatched .control/.endc counts: " ++
      toString (countOcc ".control".toList (lowerL txt)) ++ "/" ++
      toString (countOcc ".endc".toList (lowerL txt)))
  else if Bool.not (isInfixL ".end".toList (lowerL txt)) &&
          Bool.not (isInfixL ".endc".toList (lowerL txt)) then
    (false, "missing .end or .endc")
  else (true, "ok")

/-- Failure condition described by the specification for
`validate_netlist` (markers matched case-insensitively, as the code
lower-cases the text before searching). -/
def validateFailCond (txt : List Char) : Prop :=
  txt.length < 10 ∨
  ((0 < countOcc ".control".toList (lowerL txt) ∨ 0 < countOcc ".endc".toList (lowerL txt)) ∧
    countOcc ".control".toList (lowerL txt) ≠ countOcc ".endc".toList (lowerL txt)) ∨
  (¬ (".end".toList <:+: lowerL txt) ∧ ¬ (".endc".toList <:+: lowerL txt))

/-! ## `analysis/oplog.py`

Python's `float(tok)` is threaded as an explicit parameter
`pf : List Char → Option ℚ` (`none` for the strings it rejects); the
conclusions below hold for every such parser.  Lines are split at `'\n'`
(a `"\r\n"` terminator is handled by the surrounding `strip`). -/

/-- Python whitespace (`str.isspace` on the ASCII fragment, the characters
`split` and `strip` treat as separators). -/
def isPySpace (c : Char) : Bool :=
  c = ' ' || c = '\t' || c = '\n' || c = '\r' || c = '\x0b' || c = '\x0c'

/-- Split a character sequence at every occurrence of `sep`. -/
def splitOnChar (sep : Char) : List Char → List (List Char)
  | [] => [[]]
  | x :: xs =>
    match splitOnChar sep xs with
    | [] => [[]]
    | h :: t => if x = sep then [] :: h :: t else (x :: h) :: t

/-- Line splitting (`str.splitlines` restricted to `'\n'` terminators). -/
def splitLines (s : List Char) : List (List Char) := splitOnChar '\n' s

/-- Model of `str.strip()`: drop leading and trailing whitespace. -/
def pyStrip (s : List Char) : List Char :=
  ((s.dropWhile isPySpace).reverse.dropWhile isPySpace).reverse

/-- Worker for `pySplitWs`, structurally recursive on a fuel argument
(sufficient whenever the fuel starts at the length of the text). -/
def pySplitWsAux : ℕ → List Char → List (List Char)
  | _, [] => []
  | 0, _ :: _ => []
  | fuel + 1, c :: t =>
    if isPySpace c then pySplitWsAux fuel t
    else (c :: t.takeWhile (fun x => !(isPySpace x))) ::
         pySplitWsAux fuel (t.dropWhile (fun x => !(isPySpace x)))

/-- Model of `str.split()` with no argument: split on whitespace runs,
producing no empty tokens. -/
def pySplitWs (s : List Char) : List (List Char) := pySplitWsAux s.length s

/-- A device bias record (`DeviceBias`). -/
structure DeviceBias where
  name : List Char
  vgs : ℚ
  vth : ℚ
deriving DecidableEq

/-- `DeviceBias.margin`: gate-source voltage minus threshold voltage. -/
def DeviceBias.margin (d : DeviceBias) : ℚ := d.vgs - d.vth

instance : Inhabited DeviceBias := ⟨⟨[], 0, 0⟩⟩

/-- One line of the accumulation loop in `parse_vgs_vth_from_oplog`:
`acc = (devices, vth values, vgs values)`. -/
def oplogStep (pf : List Char → Option ℚ)
    (acc : List (List Char) × List ℚ × List ℚ) (raw : List Char) :
    List (List Char) × List ℚ × List ℚ :=
  let line := pyStrip raw
  if line = [] then acc
  else
    match pySplitWs line with
    | [] => acc
    | p0 :: rest =>
      if lowerL p0 = "device".toList ∧ rest ≠ [] then
        (acc.1 ++ rest, acc.2.1, acc.2.2)
      else if lowerL p0 = "vth".toList ∧ rest ≠ [] then
        (acc.1, acc.2.1 ++ rest.filterMap pf, acc.2.2)
      else if lowerL p0 = "vgs".toList ∧ rest ≠ [] then
        (acc.1, acc.2.1, acc.2.2 ++ rest.filterMap pf)
      else acc

/-- Model of `parse_vgs_vth_from_oplog`: scan the lines accumulating device
names, vth values and vgs values, then zip the three lists to their common
shortest length. Total — the construction step cannot fail. -/
def parse_vgs_vth_from_oplog (pf : List Char → Option ℚ) (text : List Char) :
    List DeviceBias :=
  if text = [] then []
  else
    let acc := (splitLines text).foldl (oplogStep pf) ([], [], [])
    let n := min acc.1.length (min acc.2.2.length acc.2.1.length)
    (List.range n).map (fun i => ⟨acc.1.getD i [], acc.2.2.getD i 0, acc.2.1.getD i 0⟩)

/-- Device names contributed by one log line, per the specification's reading
(a line whose first token is `device`, case-insensitively, with at least one
further token). -/
def lineDevices (raw : List Char) : List (List Char) :=
  match pySplitWs (pyStrip raw) with
  | p0 :: rest => if lowerL p0 = "device".toList ∧ rest ≠ [] then rest else []
  | [] => []

/-- Threshold voltages contributed by one log line. -/
def lineVth (pf : List Char → Option ℚ) (raw : List Char) : List ℚ :=
  match pySplitWs (pyStrip raw) with
  | p0 :: rest =>
    if lowerL p0 = "device".toList ∧ rest ≠ [] then []
    else if lowerL p0 = "vth".toList ∧ rest ≠ [] then rest.filterMap pf else []
  | [] => []

/-- Gate-source voltages contributed by one log line. -/
def lineVgs (pf : List Char → Option ℚ) (raw : List Char) : List ℚ :=
  match pySplitWs (pyStrip raw) with
  | p0 :: rest =>
    if lowerL p0 = "device".toList ∧ rest ≠ [] then []
    else if lowerL p0 = "vth".toList ∧ rest ≠ [] then []
    else if lowerL p0 = "vgs".toList ∧ rest ≠ [] then rest.filterMap pf else []
  | [] => []

/-- The independent device-name scan of the whole log. -/
def specDevices (text : List Char) : List (List Char) :=
  ((splitLines text).map lineDevices).flatten

/-- The independent threshold-voltage scan of the whole log. -/
def specVth (pf : List Char → Option ℚ) (text : List Char) : List ℚ :=
  ((splitLines text).map (lineVth pf)).flatten

/-- The independent gate-source-voltage scan of the whole log. -/
def specVgs (pf : List Char → Option ℚ) (text : List Char) : List ℚ :=
  ((splitLines text).map (lineVgs pf)).flatten

/-! ## `sim/netlist_builders.py`

`strip_control_blocks` is `re.sub` with the multiline pattern
`^\s*\.control[\s\S]*?\.endc\s*$`.  The model below implements exactly that
matcher on character lists: matches may start only at a line start (`^` with
`re.MULTILINE`); the `\s*` before the literal `.control` is forced to consume
the whole whitespace run; the lazy `[\s\S]*?` picks the earliest `.endc` whose
tail admits `\s*$`; the greedy `\s*` before `$` consumes the longest
whitespace run that still ends at a line end (before a newline or at the end
of the string).  `re.sub` removes the leftmost match and resumes scanning at
the position just past it. -/

/-- Attempt to match `\s*$` against `s` (the text following `.endc`), greedily.
On success, return whether the last consumed character was a newline (which
determines whether the resume position is a line start) and the unconsumed
remainder. -/
def endcTailMatch (s : List Char) : Option (Bool × List Char) :=
  let w := s.takeWhile isPySpace
  let r := s.drop w.length
  if r.isEmpty then
    some (match w.getLast? with
          | some c => c = '\n'
          | none => false, [])
  else
    match (List.range w.length).filter (fun k => w.getD k ' ' = '\n') |>.getLast? with
    | some k => some (decide (k ≠ 0 ∧ w.getD (k - 1) ' ' = '\n'), s.drop k)
    | none => none

/-- Lazy scan for the first position at which `.endc\s*$` matches. -/
def findEndcLazy : List Char → Option (Bool × List Char)
  | [] => none
  | c :: t =>
    if ".endc".toList.isPrefixOf (c :: t) then
      match endcTailMatch ((c :: t).drop 5) with
      | some res => some res
      | none => findEndcLazy t
    else findEndcLazy t

/-- Attempt to match the whole pattern at the current position, which the
caller guarantees is a line start. -/
def tryControlMatch (s : List Char) : Option (Bool × List Char) :=
  let rest := s.dropWhile isPySpace
  if ".control".toList.isPrefixOf rest then findEndcLazy (rest.drop 8)
  else none

/-- The `re.sub` scan: walk the text, trying the pattern at every line start,
removing each match and resuming just past it.  Structurally recursive on a
fuel argument (sufficient whenever the fuel starts at the length of the text,
since a match always consumes at least one character); the length guard on
the match branch keeps that invariant and is never false, every match being
at least thirteen characters long. -/
def stripGoAux : ℕ → List Char → Bool → List Char
  | _, [], _ => []
  | 0, s, _ => s
  | fuel + 1, c :: t, atStart =>
    match (if atStart then tryControlMatch (c :: t) else none) with
    | some (nl, rest) =>
      if rest.length < (c :: t).length then stripGoAux fuel rest nl
      else c :: stripGoAux fuel t (c = '\n')
    | none => c :: stripGoAux fuel t (c = '\n')

/-- Model of `strip_control_blocks`. -/
def strip_control_blocks (s : List Char) : List Char := stripGoAux s.length s true

/-- Index of the last occurrence of `pat` in `s` (`str.rfind`), as an option. -/
def rfindL (pat s : List Char) : Option ℕ :=
  ((List.range (s.length + 1)).filter (fun i => pat.isPrefixOf (s.drop i))).getLast?

/-- Model of `append_control_block`: raises when the netlist has no `.end`
(the check is on the text as given; the insertion index is the last `.end` of
the lower-cased text, which exists whenever the check passed, so the
`rfind`-failed branch is unreachable). -/
def append_control_block (s block : List Char) : Except String (List Char) :=
  if isInfixL ".end".toList s = false then
    Except.error "Netlist missing .end terminator"
  else
    match rfindL ".end".toList (lowerL s) with
    | some i => Except.ok (s.take i ++ block ++ s.drop i)
    | none => Except.error "unreachable: .end is present"

/-- Model of `_signals_to_str`: space-join of the nonempty signal names. -/
def signals_to_str (signals : List (List Char)) : List Char :=
  List.intercalate " ".toList (signals.filter (fun s => s ≠ []))

/-- The control block built by `build_ac_netlist` (the exact f-string,
including its leading newline and trailing indentation). -/
def controlTemplate (cmd outfile sigs : List Char) : List Char :=
  "\n    .control\n      ".toList ++ cmd ++
  "\n      wrdata ".toList ++ outfile ++ " ".toList ++ sigs ++
  "\n    .endc\n    ".toList

/-- Model of `build_ac_netlist` with its default `ac_cmd` and `outfile`. -/
def build_ac_netlist (base : List Char) (signals : List (List Char))
    (outfile : List Char := "output_ac.dat".toList)
    (acCmd : List Char := "ac dec 10 1 1e9".toList) : Except String (List Char) :=
  append_control_block (strip_control_blocks base)
    (controlTemplate acCmd outfile (signals_to_str signals))

/-- Model of `build_tran_netlist` with its defaults. -/
def build_tran_netlist (base : List Char) (signals : List (List Char))
    (outfile : List Char := "output_tran.dat".toList)
    (tranCmd : List Char := "tran 50n 500u".toList) : Except String (List Char) :=
  append_control_block (strip_control_blocks base)
    (controlTemplate tranCmd outfile (signals_to_str signals))

/-- Model of `build_dc_netlist` with its defaults (`signals = None` becomes
the empty list). -/
def build_dc_netlist (base : List Char)
    (sweepCmd : List Char := "dc Vcm 0 1.2 0.001".toList)
    (signals : List (List Char) := [])
    (outfile : List Char := "output_dc.dat".toList) : Except String (List Char) :=
  append_control_block (strip_control_blocks base)
    (controlTemplate sweepCmd outfile (signals_to_str signals))

/-! ## `agents/orchestrator.py`: scoring and ranking of variants

`Orchestrator.optimize` evaluates each variant through `run_once` (which runs
the external simulator) and ranks the outcomes.  `run_once` is the external
boundary here and is threaded as a parameter
`evalVariant : ℕ → List Char → Except String RunResult`: `Except.error e`
models `run_once` raising an exception with message `e`, which `optimize`
catches and converts into a failed outcome. -/

/-- The fields of a `run_once` result dictionary that scoring and ranking
read.  A metric field is `some x` exactly when the corresponding key is
present with a numeric value. -/
structure RunResult where
  success : Bool := true
  error : Option String := none
  ac_gain_db : Option ℚ := none
  tran_gain_db : Option ℚ := none
  unity_bandwidth_hz : Option ℚ := none
deriving DecidableEq, Inhabited

/-- Model of the inline `score_result`: prefer `ac_gain_db`, else
`0.9 * tran_gain_db`, else 0; plus `0.001 * unity_bandwidth_hz / 1e6` when
unity bandwidth is present.  (The source's `try` is dead: none of the float
conversions can raise on a numeric value.) -/
def score_result (r : RunResult) : ℚ :=
  let s : ℚ :=
    match r.ac_gain_db with
    | some g => 0 + g * 1
    | none =>
      match r.tran_gain_db with
      | some tg => 0 + tg * (9 / 10)
      | none => 0
  match r.unity_bandwidth_hz with
  | some u => s + (1 / 1000) * u / 10 ^ 6
  | none => s

/-- The scoring policy exactly as the specification words it. -/
def score_spec (r : RunResult) : ℚ :=
  (match r.ac_gain_db with
   | some g => g
   | none =>
     match r.tran_gain_db with
     | some tg => (9 / 10) * tg
     | none => 0) +
  (match r.unity_bandwidth_hz with
   | some u => (1 / 1000) * (u / 10 ^ 6)
   | none => 0)

/-- An entry of `all_results`: the per-variant outcome with its score and
variant index added. -/
structure ScoredResult where
  result : RunResult
  score : ℚ
  variant_index : ℕ
deriving DecidableEq, Inhabited

/-- The dictionary returned by `Orchestrator.optimize`. -/
structure OptimizeOutcome where
  best_index : Option ℕ
  best_result : Option ScoredResult
  all_results : List ScoredResult
deriving DecidableEq

/-- The outcome recorded for one variant: the `run_once` result, or the
failed outcome `{success: False, error: str(e)}` when `run_once` raised. -/
def runOnceOutcome (ev : Except String RunResult) : RunResult :=
  match ev with
  | Except.ok r => r
  | Except.error e => { success := false, error := some e }

/-- The comparison `sc > best_score` with `best_score` starting at `-inf`
(`none`). -/
def scGtBest (sc : ℚ) (best : Option ℚ) : Bool :=
  match best with
  | none => true
  | some b => decide (b < sc)

/-- The evaluation loop of `Orchestrator.optimize` over the remaining
variants, carrying the running best index, best score (`none` = `-inf`),
best scored result and the accumulated `all_results`. -/
def optimizeGo (evalVariant : ℕ → List Char → Except String RunResult) :
    ℕ → List (List Char) → Option ℕ → Option ℚ → Option ScoredResult →
    List ScoredResult → OptimizeOutcome
  | _, [], bestIdx, _, bestRes, acc => ⟨bestIdx, bestRes, acc⟩
  | i, net :: rest, bestIdx, bestScore, bestRes, acc =>
    let res := runOnceOutcome (evalVariant i net)
    let sc := score_result res
    let sr : ScoredResult := ⟨res, sc, i⟩
    if scGtBest sc bestScore then
      optimizeGo evalVariant (i + 1) rest (some i) (some sc) (some sr) (acc ++ [sr])
    else
      optimizeGo evalVariant (i + 1) rest bestIdx bestScore bestRes (acc ++ [sr])

/-- Model of `Orchestrator.optimize`. -/
def Orchestrator.optimize (evalVariant : ℕ → List Char → Except String RunResult)
    (variants : List (List Char)) : OptimizeOutcome :=
  optimizeGo evalVariant 0 variants none none none []

/-- The outcome recorded for variant `j` of `variants` under `evalVariant`. -/
def resOf (evalVariant : ℕ → List Char → Except String RunResult)
    (variants : List (List Char)) (j : ℕ) : RunResult :=
  runOnceOutcome (evalVariant j (variants.getD j []))

/-- The score of variant `j`. -/
def sOf (evalVariant : ℕ → List Char → Except String RunResult)
    (variants : List (List Char)) (j : ℕ) : ℚ :=
  score_result (resOf evalVariant variants j)

/-- The `all_results` entry of variant `j`. -/
def entryOf (evalVariant : ℕ → List Char → Except String RunResult)
    (variants : List (List Char)) (j : ℕ) : ScoredResult :=
  ⟨resOf evalVariant variants j, sOf evalVariant variants j, j⟩

/-- Invariant of the ranking loop after processing the first `i` variants:
either nothing has been processed, or the best index is the first index
attaining the maximal score among the first `i` (strictly above every earlier
score, at or above every score up to `i`). -/
def RankInv (evalVariant : ℕ → List Char → Except String RunResult)
    (variants : List (List Char)) (bestIdx : Option ℕ)
    (bestRes : Option ScoredResult) (i : ℕ) : Prop :=
  (bestIdx = none ∧ bestRes = none ∧ i = 0) ∨
  (∃ k, bestIdx = some k ∧ bestRes = some (entryOf evalVariant variants k) ∧ k < i ∧
    (∀ j, j < i → sOf evalVariant variants j ≤ sOf evalVariant variants k) ∧
    (∀ j, j < k → sOf evalVariant variants j < sOf evalVariant variants k))

/-! ## `agents/optimizer.py`: the iteration loop

`Optimizer.run` submits `_run_iteration` to a single bounded worker and waits
for it with a timeout.  The worker is the external boundary: the oracle
`iterRes : ℕ → List Char → IterOutcome` gives, for each iteration index and
current netlist, whether the worker timed out, raised, or returned a result
dictionary.  Writing the final report file is the function's return value in
the model. -/

/-- The fields of a `_run_iteration` result dictionary that the `run` loop
reads. -/
structure IterResult where
  orchestrator_best : Option ScoredResult := none
  orchestrator_best_index : Option ℕ := none
  sizing_netlist_text : Option (List Char) := none
  error : Option String := none
deriving Inhabited

/-- Outcome of one worker submission: result within the timeout, a raised
exception, or a timeout. -/
inductive IterOutcome where
  | ok (r : IterResult)
  | exn (msg : String)
  | timeout

/-- A history entry: either an iteration result dictionary or one of the
terminal `{"error": ..., "iteration": ...}` records. -/
inductive HistEntry where
  | record (r : IterResult)
  | err (msg : String) (iteration : ℕ)

/-- The error field of a history entry. -/
def HistEntry.errorField : HistEntry → Option String
  | HistEntry.record r => r.error
  | HistEntry.err msg _ => some msg

/-- The value returned by `Optimizer.run` (also the content of the final
report). -/
structure RunReport where
  best_netlist : List Char
  best_result : Option ScoredResult
  history : List HistEntry

/-- Truthiness of the optional sizing netlist text (`if ... and
netlist_from_sizing:`). -/
def sizingTruthy : Option (List Char) → Bool
  | some t => decide (t ≠ [])
  | none => false

/-- One successful iteration's update of `(current, best_netlist,
best_result)`, from the tail of the loop body of `Optimizer.run`. -/
def runUpdate (r : IterResult) (current best : List Char)
    (bestRes : Option ScoredResult) : List Char × Option ScoredResult :=
  match r.orchestrator_best with
  | none => (best, bestRes)
  | some ob =>
    match r.orchestrator_best_index with
    | some bi =>
      if bi = 1 ∧ sizingTruthy r.sizing_netlist_text then
        (r.sizing_netlist_text.getD [], some ob)
      else (current, some ob)
    | none => (best, some ob)

/-- The iteration loop of `Optimizer.run`: `it` is the zero-based iteration
index, the second argument the number of iterations still allowed. -/
def runGo (iterRes : ℕ → List Char → IterOutcome) :
    ℕ → ℕ → List Char → List Char → Option ScoredResult → List HistEntry → RunReport
  | _, 0, _, best, bestRes, hist => ⟨best, bestRes, hist⟩
  | it, rem + 1, current, best, bestRes, hist =>
    match iterRes it current with
    | IterOutcome.timeout => ⟨best, bestRes, hist ++ [HistEntry.err "timeout" (it + 1)]⟩
    | IterOutcome.exn e => ⟨best, bestRes, hist ++ [HistEntry.err e (it + 1)]⟩
    | IterOutcome.ok r =>
      let bb := runUpdate r current best bestRes
      runGo iterRes (it + 1) rem bb.1 bb.1 bb.2 (hist ++ [HistEntry.record r])

/-- Model of `Optimizer.run`: iterate up to `maxIters` times from the base
netlist; on a timeout or an exception append the terminal history record and
stop; always return the final report. -/
def Optimizer.run (iterRes : ℕ → List Char → IterOutcome) (baseNetlist : List Char)
    (maxIters : ℕ) : RunReport :=
  runGo iterRes 0 maxIters baseNetlist baseNetlist none []

/-! ## Concrete inputs used by counterexamples and witnesses -/

/-- A minimal valid netlist. -/
def sampleNetlist : List Char := "* t\nV1 in 0 1\n.end\n".toList

/-- A one-signal list. -/
def sampleSignals : List (List Char) := ["out".toList]

deriving instance DecidableEq for Except

/-! # Theorems -/

set_option maxRecDepth 4096

/-- Claim C1, counterexample: the claim says each metric extractor returns
the numeric default 0.0 whenever the waveform data at the path is absent
(missing or unreadable file).  It does not: for an absent file
`safe_genfromtxt` substitutes the 2×2 zero table, whose first complex sample
has magnitude 0, so `ac_gain_db` returns `20 * log10 (1e-30) = -600.0`,
not 0.0. -/
theorem C1_counterexample :
    ac_gain_db_from_dat none = Except.ok (-600) ∧ (-600 : ℚ) ≠ 0 := by
  refine ⟨by with_unfolding_all decide, by with_unfolding_all decide⟩

/-- Claim C1, amended: for an absent or unreadable file no extractor raises
(the reader substitutes the 2×2 zero fallback table), and the returned
defaults are: `ac_gain_db = 20·log10 1e-30 = -600.0`, `bandwidth_hz = 0.0`,
`unity_bandwidth_hz = 0.0`, `phase_margin_deg = 180.0`, and
`tran_gain_db = 20·log10 (1e-30 / 2e-6)`; the default is 0.0 only in the
extractors' empty-sample branches, not for absent files. -/
theorem C1_amended :
    ac_gain_db_from_dat none = Except.ok (20 * log10 eps30) ∧
    (20 : ℚ) * log10 eps30 = -600 ∧
    bandwidth_hz_from_dat none = Except.ok 0 ∧
    unity_bandwidth_hz_from_dat none = Except.ok 0 ∧
    phase_margin_deg_from_dat none = Except.ok 180 ∧
    tran_gain_db_from_dat none = Except.ok (20 * log10 (eps30 / qmax (2 / 10 ^ 6) eps30)) := by
  refine ⟨by with_unfolding_all decide, by with_unfolding_all decide,
    by with_unfolding_all decide, by with_unfolding_all decide,
    by with_unfolding_all decide, by with_unfolding_all decide⟩

/-- Claim C4: `validate_syntax` returns `ok = False` (with a nonempty
human-readable reason) if and only if the text is under 10 characters, or the
counts of the paired markers `.control` and `.endc` are unequal while at
least one of them is present, or the text contains neither `.end` nor
`.endc`; otherwise it returns `ok = True`.  Markers are matched on the
lower-cased text, as in the source. -/
theorem C4_validate :
    ∀ txt : List Char,
      ((validate_netlist txt).1 = false ↔ validateFailCond txt) ∧
      ((validate_netlist txt).1 = false → (validate_netlist txt).2 ≠ "") := by
  intro txt
  unfold validate_netlist validateFailCond
  split_ifs with hA hB hC
  · exact ⟨⟨fun _ => Or.inl hA, fun _ => rfl⟩, fun _ => by decide⟩
  · refine ⟨⟨fun _ => Or.inr (Or.inl hB), fun _ => rfl⟩, fun _ hcontra => ?_⟩
    have hlen := congrArg String.length hcontra
    rw [String.length_append, String.length_append, String.length_append] at hlen
    have h34 : (0 : ℕ) < ("mismatched .control/.endc counts: " : String).length := by decide
    have h0 : ("" : String).length = 0 := rfl
    omega
  · refine ⟨⟨fun _ => Or.inr (Or.inr ?_), fun _ => rfl⟩, fun _ => by decide⟩
    simpa [isInfixL, Bool.and_eq_true, Bool.not_eq_true', decide_eq_false_iff_not] using hC
  · refine ⟨⟨fun h => absurd h (by simp), fun h => ?_⟩, fun h => absurd h (by simp)⟩
    rcases h with h | h | h
    · exact absurd h hA
    · exact absurd h hB
    · refine absurd ?_ hC
      simp [isInfixL, Bool.and_eq_true, Bool.not_eq_true', decide_eq_false_iff_not]
      exact ⟨h.1, h.2⟩

/-- Witness for C4 at a concrete too-short netlist. -/
theorem C4_witness :
    ((validate_netlist "bad".toList).1 = false ↔ validateFailCond "bad".toList) ∧
      ((validate_netlist "bad".toList).1 = false →
        (validate_netlist "bad".toList).2 ≠ "") :=
  C4_validate "bad".toList

/-- Claim C2: for any file content `T` at `path`, applying a replacement `T2`
and then reverting with the backup handle returned restores `path` to
byte-identical content `T` (the backup handle is nonempty and the revert
succeeds). -/
theorem C2_apply_then_revert :
    ∀ (fs : FS) (path T T2 ts : List Char), fs path = some T →
      (apply_netlist_replacement fs path T2 ts).2.1 ≠ [] ∧
      (revert_backup (apply_netlist_replacement fs path T2 ts).1 path
          (apply_netlist_replacement fs path T2 ts).2.1).map (fun g => g path) =
        Except.ok (some T) := by
  intro fs path T T2 ts h
  have h5 : ((".bak.".toList : List Char)).length = 5 := rfl
  have hbp : path ++ ".bak.".toList ++ ts ≠ path := by
    intro he
    have hl := congrArg List.length he
    rw [List.length_append, List.length_append] at hl
    omega
  have hbt : path ++ ".bak.".toList ++ ts ≠ path ++ ".tmp.".toList ++ ts := by
    intro he
    rw [List.append_assoc, List.append_assoc] at he
    have h1 := List.append_cancel_left he
    have h2 := List.append_cancel_right h1
    exact absurd h2 (by decide)
  have hbak : (apply_netlist_replacement fs path T2 ts).2.1 = path ++ ".bak.".toList ++ ts := by
    simp only [apply_netlist_replacement, h]
  have hval : (apply_netlist_replacement fs path T2 ts).1 (path ++ ".bak.".toList ++ ts) =
      some T := by
    simp only [apply_netlist_replacement, h, fsUpdate]
    rw [if_neg hbp, if_neg hbt, if_neg hbt, if_pos trivial]
  constructor
  · rw [hbak]
    intro he
    rcases List.append_eq_nil.mp he with ⟨he1, _⟩
    rcases List.append_eq_nil.mp he1 with ⟨_, he3⟩
    exact absurd he3 (by decide)
  · rw [hbak]
    unfold revert_backup
    rw [hval]
    simp [fsUpdate, Except.map]

/-- Witness for C2 at a concrete filesystem, path and contents. -/
theorem C2_witness :
    ((fun p => if p = "a.cir".toList then some "v1 vdd 0 1\n.end\n".toList else none) : FS)
        "a.cir".toList = some "v1 vdd 0 1\n.end\n".toList ∧
      ((apply_netlist_replacement
          (fun p => if p = "a.cir".toList then some "v1 vdd 0 1\n.end\n".toList else none)
          "a.cir".toList "v2 vdd 0 2\n.end\n".toList "20240101T000000Z".toList).2.1 ≠ [] ∧
        (revert_backup
            (apply_netlist_replacement
              (fun p => if p = "a.cir".toList then some "v1 vdd 0 1\n.end\n".toList else none)
              "a.cir".toList "v2 vdd 0 2\n.end\n".toList "20240101T000000Z".toList).1
            "a.cir".toList
            (apply_netlist_replacement
              (fun p => if p = "a.cir".toList then some "v1 vdd 0 1\n.end\n".toList else none)
              "a.cir".toList "v2 vdd 0 2\n.end\n".toList "20240101T000000Z".toList).2.1).map
          (fun g => g "a.cir".toList) = Except.ok (some "v1 vdd 0 1\n.end\n".toList)) :=
  ⟨by decide, C2_apply_then_revert _ _ _ _ _ (by decide)⟩

/-- One step of the oplog accumulation equals appending the line's
contributions to the three lists. -/
theorem oplogStep_eq (pf : List Char → Option ℚ)
    (acc : List (List Char) × List ℚ × List ℚ) (raw : List Char) :
    oplogStep pf acc raw =
      (acc.1 ++ lineDevices raw, acc.2.1 ++ lineVth pf raw, acc.2.2 ++ lineVgs pf raw) := by
  unfold oplogStep lineDevices lineVth lineVgs
  by_cases hline : pyStrip raw = []
  · rw [if_pos hline, hline]
    simp [pySplitWs, pySplitWsAux]
  · rw [if_neg hline]
    cases hsplit : pySplitWs (pyStrip raw) with
    | nil => simp
    | cons p0 rest =>
      dsimp only
      split_ifs <;> simp

/-- The oplog accumulation over a list of lines equals the three independent
scans, appended to the starting accumulator. -/
theorem oplogFold (pf : List Char → Option ℚ) :
    ∀ (ls : List (List Char)) (d : List (List Char)) (t g : List ℚ),
      ls.foldl (oplogStep pf) (d, t, g) =
        (d ++ (ls.map lineDevices).flatten, t ++ (ls.map (lineVth pf)).flatten,
         g ++ (ls.map (lineVgs pf)).flatten) := by
  intro ls
  induction ls with
  | nil => intro d t g; simp
  | cons raw ls ih =>
    intro d t g
    rw [List.foldl_cons, oplogStep_eq, ih]
    simp [List.append_assoc]

/-- Claim C8: for every operating-point log text and every float parser, the
bias-margin parser (which never raises: it is a total function) returns
exactly `min (#devices) (min (#vgs) (#vth))` tuples, pairing the three
independently scanned lists index-wise and discarding unmatched tails, and
each tuple's margin is its gate-source voltage minus its threshold voltage. -/
theorem C8_oplog_zip :
    ∀ (pf : List Char → Option ℚ) (text : List Char),
      (parse_vgs_vth_from_oplog pf text).length =
        min (specDevices text).length
          (min (specVgs pf text).length (specVth pf text).length) ∧
      ∀ i, i < (parse_vgs_vth_from_oplog pf text).length →
        (parse_vgs_vth_from_oplog pf text).getD i default =
          ⟨(specDevices text).getD i [], (specVgs pf text).getD i 0,
            (specVth pf text).getD i 0⟩ ∧
        ((parse_vgs_vth_from_oplog pf text).getD i default).margin =
          (specVgs pf text).getD i 0 - (specVth pf text).getD i 0 := by
  intro pf text
  by_cases htext : text = []
  · subst htext
    constructor
    · simp [parse_vgs_vth_from_oplog, specDevices, specVgs, specVth, splitLines, splitOnChar,
        lineDevices, lineVth, lineVgs, pyStrip, pySplitWs, pySplitWsAux]
    · intro i hi
      simp [parse_vgs_vth_from_oplog] at hi
  · have hacc : (splitLines text).foldl (oplogStep pf) ([], [], []) =
        (specDevices text, specVth pf text, specVgs pf text) := by
      rw [oplogFold]
      simp [specDevices, specVth, specVgs]
    have hparse : parse_vgs_vth_from_oplog pf text =
        (List.range (min (specDevices text).length
          (min (specVgs pf text).length (specVth pf text).length))).map
          (fun i => ⟨(specDevices text).getD i [], (specVgs pf text).getD i 0,
            (specVth pf text).getD i 0⟩) := by
      unfold parse_vgs_vth_from_oplog
      rw [if_neg htext, hacc]
    rw [hparse]
    constructor
    · simp
    · intro i hi
      simp only [List.length_map, List.length_range] at hi
      have hentry : ((List.range (min (specDevices text).length
          (min (specVgs pf text).length (specVth pf text).length))).map
          (fun i => (⟨(specDevices text).getD i [], (specVgs pf text).getD i 0,
            (specVth pf text).getD i 0⟩ : DeviceBias))).getD i default =
          ⟨(specDevices text).getD i [], (specVgs pf text).getD i 0,
            (specVth pf text).getD i 0⟩ := by
        rw [List.getD_eq_getElem?_getD, List.getElem?_map, List.getElem?_range hi]
        rfl
      rw [hentry]
      exact ⟨rfl, rfl⟩

/-- Witness for C8 at a concrete log text and float parser. -/
theorem C8_witness :
    0 < (parse_vgs_vth_from_oplog
          (fun s => if s = "1.5".toList then some (3 / 2) else
            if s = "0.7".toList then some (7 / 10) else none)
          "device m1 m2\nvgs 1.5 1.5\nvth 0.7\n".toList).length ∧
      ((parse_vgs_vth_from_oplog
          (fun s => if s = "1.5".toList then some (3 / 2) else
            if s = "0.7".toList then some (7 / 10) else none)
          "device m1 m2\nvgs 1.5 1.5\nvth 0.7\n".toList).getD 0 default =
        ⟨(specDevices "device m1 m2\nvgs 1.5 1.5\nvth 0.7\n".toList).getD 0 [],
          (specVgs (fun s => if s = "1.5".toList then some (3 / 2) else
            if s = "0.7".toList then some (7 / 10) else none)
            "device m1 m2\nvgs 1.5 1.5\nvth 0.7\n".toList).getD 0 0,
          (specVth (fun s => if s = "1.5".toList then some (3 / 2) else
            if s = "0.7".toList then some (7 / 10) else none)
            "device m1 m2\nvgs 1.5 1.5\nvth 0.7\n".toList).getD 0 0⟩ ∧
        ((parse_vgs_vth_from_oplog
          (fun s => if s = "1.5".toList then some (3 / 2) else
            if s = "0.7".toList then some (7 / 10) else none)
          "device m1 m2\nvgs 1.5 1.5\nvth 0.7\n".toList).getD 0 default).margin =
          (specVgs (fun s => if s = "1.5".toList then some (3 / 2) else
            if s = "0.7".toList then some (7 / 10) else none)
            "device m1 m2\nvgs 1.5 1.5\nvth 0.7\n".toList).getD 0 0 -
          (specVth (fun s => if s = "1.5".toList then some (3 / 2) else
            if s = "0.7".toList then some (7 / 10) else none)
            "device m1 m2\nvgs 1.5 1.5\nvth 0.7\n".toList).getD 0 0) :=
  ⟨by decide,
    (C8_oplog_zip
      (fun s => if s = "1.5".toList then some (3 / 2) else
        if s = "0.7".toList then some (7 / 10) else none)
      "device m1 m2\nvgs 1.5 1.5\nvth 0.7\n".toList).2 0 (by decide)⟩

/-- Helper for C9: the AC gain of a 2-d table with first row `r0` of width at
least two. -/
theorem ac_gain_db_mat (r0 : List ℚ) (rest : List (List ℚ)) (h2 : 2 ≤ r0.length) :
    ac_gain_db_from_dat (some (NpArray.mat (r0 :: rest))) =
      Except.ok (20 * log10 (qmax eps30 (cAbs (r0.getD 1 0)
        (if 2 < r0.length then r0.getD 2 0 else 0)))) := by
  have h0 : 0 < r0.length := by omega
  have h1 : 1 < r0.length := by omega
  by_cases h3 : 2 < r0.length
  · simp [ac_gain_db_from_dat, parse_ac_dat, safe_genfromtxt, reshapeRow, getCol, h0, h1,
      npShape1, h3, Except.instMonad, Except.bind, List.replicate_succ]
  · simp [ac_gain_db_from_dat, parse_ac_dat, safe_genfromtxt, reshapeRow, getCol, h0, h1,
      npShape1, h3, Except.instMonad, Except.bind, List.replicate_succ]

/-- Claim C9: for every well-formed AC table with at least one sample (as a
2-d table, or as the 1-d single-row array `np.genfromtxt` produces for a
one-row file), `ac_gain_db` returns `20·log10 (max 1e-30 |first complex
sample|)`, the complex sample being formed from the real column (index 1) and
the imaginary column (index 2) when present, zero otherwise. -/
theorem C9_ac_gain_first_sample :
    (∀ (r0 : List ℚ) (rest : List (List ℚ)), 2 ≤ r0.length →
      ac_gain_db_from_dat (some (NpArray.mat (r0 :: rest))) =
        Except.ok (20 * log10 (qmax eps30 (cAbs (r0.getD 1 0)
          (if 2 < r0.length then r0.getD 2 0 else 0))))) ∧
    (∀ xs : List ℚ, 2 ≤ xs.length →
      ac_gain_db_from_dat (some (NpArray.vec xs)) =
        Except.ok (20 * log10 (qmax eps30 (cAbs (xs.getD 1 0)
          (if 2 < xs.length then xs.getD 2 0 else 0))))) := by
  refine ⟨fun r0 rest h2 => ac_gain_db_mat r0 rest h2, fun xs h2 => ?_⟩
  cases xs with
  | nil => simp at h2
  | cons x xs' =>
    have hvm : ac_gain_db_from_dat (some (NpArray.vec (x :: xs'))) =
        ac_gain_db_from_dat (some (NpArray.mat [x :: xs'])) := by
      simp [ac_gain_db_from_dat, parse_ac_dat, safe_genfromtxt, reshapeRow, Except.instMonad,
        Except.bind]
    rw [hvm]
    exact ac_gain_db_mat (x :: xs') [] h2

/-- Witness for C9 at a concrete two-row, two-column table. -/
theorem C9_witness :
    2 ≤ ([1, 2] : List ℚ).length ∧
      ac_gain_db_from_dat (some (NpArray.mat [[1, 2], [3, 4]])) =
        Except.ok (20 * log10 (qmax eps30 (cAbs (([1, 2] : List ℚ).getD 1 0)
          (if 2 < ([1, 2] : List ℚ).length then ([1, 2] : List ℚ).getD 2 0 else 0)))) :=
  ⟨by decide, C9_ac_gain_first_sample.1 [1, 2] [[3, 4]] (by decide)⟩

/-- A successful lazy search for the block end implies the text contains
`.endc`. -/
theorem endc_infix_of_findEndcLazy :
    ∀ (s : List Char) (p : Bool × List Char), findEndcLazy s = some p →
      ".endc".toList <:+: s := by
  intro s
  induction s with
  | nil => intro p h; simp [findEndcLazy] at h
  | cons c t ih =>
    intro p h
    rw [findEndcLazy] at h
    by_cases hpre : ".endc".toList.isPrefixOf (c :: t)
    · exact (List.isPrefixOf_iff_prefix.mp hpre).isInfix
    · rw [if_neg hpre] at h
      exact List.infix_cons (ih p h)

/-- A successful pattern match implies the text contains `.endc`. -/
theorem endc_infix_of_tryControlMatch (s : List Char) (p : Bool × List Char)
    (h : tryControlMatch s = some p) : ".endc".toList <:+: s := by
  rw [tryControlMatch] at h
  by_cases hpre : ".control".toList.isPrefixOf (s.dropWhile isPySpace)
  · rw [if_pos hpre] at h
    have h1 := endc_infix_of_findEndcLazy _ p h
    have h2 : ".endc".toList <:+: s.dropWhile isPySpace :=
      h1.trans (List.drop_suffix _ _).isInfix
    exact h2.trans (List.dropWhile_suffix _).isInfix
  · rw [if_neg hpre] at h
    simp at h

/-- On a text that contains no `.endc` the strip scan is the identity. -/
theorem stripGoAux_no_endc :
    ∀ (fuel : ℕ) (s : List Char) (b : Bool), ¬ (".endc".toList <:+: s) →
      stripGoAux fuel s b = s := by
  intro fuel
  induction fuel with
  | zero =>
    intro s b _
    cases s <;> rfl
  | succ fuel ih =>
    intro s b hno
    cases s with
    | nil => rfl
    | cons c t =>
      have hnot : ¬ (".endc".toList <:+: t) := fun hk => hno (List.infix_cons hk)
      have htry : (if b = true then tryControlMatch (c :: t) else none) = none := by
        by_cases hb : b = true
        · rw [if_pos hb]
          cases htc : tryControlMatch (c :: t) with
          | none => rfl
          | some p => exact absurd (endc_infix_of_tryControlMatch _ p htc) hno
        · rw [if_neg hb]
      rw [stripGoAux, htry]
      rw [ih t _ hnot]

/-- On a text that contains no `.end` the strip leaves the text unchanged,
so the builder's missing-terminator check fires on the original text. -/
theorem strip_no_end (s : List Char) (h : ¬ (".end".toList <:+: s)) :
    strip_control_blocks s = s := by
  apply stripGoAux_no_endc
  intro hk
  exact h ((List.isPrefixOf_iff_prefix.mp (by decide :
    ".end".toList.isPrefixOf ".endc".toList)).isInfix.trans hk)

/-- Claim C6, amended: the builders are not byte-level idempotent — the
second application strips the previously inserted block but leaves part of
its surrounding whitespace behind (see the counterexample) — yet they are
idempotent up to whitespace and never duplicate the measurement block: on the
sample netlist the two results differ only in whitespace characters and the
twice-built netlist still contains exactly one block-open directive; and for
any netlist with no end-of-file marker the builder raises the
missing-terminator error, as the claim states. -/
theorem C6_amended :
    (∀ (s : List Char) (signals : List (List Char)), ¬ (".end".toList <:+: s) →
      build_ac_netlist s signals = Except.error "Netlist missing .end terminator") ∧
    ((((build_ac_netlist sampleNetlist sampleSignals).bind
          (fun t1 => build_ac_netlist t1 sampleSignals)).toOption.getD []).filter
        (fun c => !(isPySpace c)) =
      (((build_ac_netlist sampleNetlist sampleSignals).toOption.getD []).filter
        (fun c => !(isPySpace c)))) ∧
    countOcc ".control".toList
        (((build_ac_netlist sampleNetlist sampleSignals).bind
          (fun t1 => build_ac_netlist t1 sampleSignals)).toOption.getD []) = 1 := by
  refine ⟨?_, by with_unfolding_all decide, by with_unfolding_all decide⟩
  intro s signals hno
  rw [build_ac_netlist, strip_no_end s hno, append_control_block,
    if_pos (show isInfixL ".end".toList s = false by
      rw [isInfixL]; exact decide_eq_false hno)]

/-- Witness for the general part of the amended C6 at a concrete netlist with
no end-of-file marker. -/
theorem C6_amended_witness :
    ¬ (".end".toList <:+: "hello world".toList) ∧
      build_ac_netlist "hello world".toList [] =
        Except.error "Netlist missing .end terminator" :=
  ⟨by decide, C6_amended.1 "hello world".toList [] (by decide)⟩

/-- Claim C10: ranking an empty sequence of variants returns
`best_index = None` and `best_result = None` with an empty `all_results`
list, rather than raising or picking a default winner. -/
theorem C10_optimize_empty :
    ∀ evalVariant, Orchestrator.optimize evalVariant [] =
      { best_index := none, best_result := none, all_results := [] } :=
  fun _ => rfl

/-- The inline scoring of `Orchestrator.optimize` computes exactly the policy
the specification describes. -/
theorem score_result_eq_spec (r : RunResult) : score_result r = score_spec r := by
  obtain ⟨s, e, ac, tg, ub⟩ := r
  cases ac <;> cases tg <;> cases ub <;> simp [score_result, score_spec] <;> ring

/-- Invariant of the ranking loop: starting from a state that correctly
summarises the first `i` variants, the loop produces the complete
`all_results` list and a best index that is the first index attaining the
maximal score. -/
theorem optimizeGo_spec (evalVariant : ℕ → List Char → Except String RunResult)
    (variants : List (List Char)) :
    ∀ (nets : List (List Char)) (i : ℕ) (bIdx : Option ℕ) (bSc : Option ℚ)
      (bRes : Option ScoredResult) (acc : List ScoredResult),
      nets = variants.drop i → i ≤ variants.length →
      bSc = bRes.map (fun sr => sr.score) →
      RankInv evalVariant variants bIdx bRes i →
      acc = (List.range i).map (entryOf evalVariant variants) →
      (optimizeGo evalVariant i nets bIdx bSc bRes acc).all_results =
          (List.range variants.length).map (entryOf evalVariant variants) ∧
        RankInv evalVariant variants
          (optimizeGo evalVariant i nets bIdx bSc bRes acc).best_index
          (optimizeGo evalVariant i nets bIdx bSc bRes acc).best_result
          variants.length := by
  intro nets
  induction nets with
  | nil =>
    intro i bIdx bSc bRes acc hnets hle hsc hinv hacc
    have hi : i = variants.length := by
      have := congrArg List.length hnets
      simp [List.length_drop] at this
      omega
    subst hi
    simp only [optimizeGo]
    exact ⟨by rw [hacc], hinv⟩
  | cons net nets ih =>
    intro i bIdx bSc bRes acc hnets hle hsc hinv hacc
    have hlt : i < variants.length := by
      by_contra hge
      have hnil : variants.drop i = [] := List.drop_eq_nil_of_le (by omega)
      rw [hnil] at hnets
      exact List.cons_ne_nil _ _ hnets
    have h0 : variants[i]? = some net := by
      have hg := List.getElem?_drop variants i 0
      rw [← hnets] at hg
      simpa using hg.symm
    have hnet : variants.getD i [] = net := by
      simp [List.getD_eq_getElem?_getD, h0]
    have hres : runOnceOutcome (evalVariant i net) = resOf evalVariant variants i := by
      rw [resOf, hnet]
    have hscr : score_result (runOnceOutcome (evalVariant i net)) =
        sOf evalVariant variants i := by
      rw [hres]; rfl
    have hsr : (⟨runOnceOutcome (evalVariant i net),
        sOf evalVariant variants i, i⟩ : ScoredResult) =
        entryOf evalVariant variants i := by
      rw [hres]; rfl
    have hnets' : nets = variants.drop (i + 1) := by
      have htl := List.tail_drop variants i
      rw [← hnets] at htl
      simpa using htl
    have hacc' : acc ++ [entryOf evalVariant variants i] =
        (List.range (i + 1)).map (entryOf evalVariant variants) := by
      rw [hacc, List.range_succ, List.map_append]
      rfl
    simp only [optimizeGo, hscr]
    simp only [hsr]
    cases hgt : scGtBest (sOf evalVariant variants i) bSc with
    | true =>
      rw [if_pos rfl]
      apply ih (i + 1) (some i) (some (sOf evalVariant variants i))
        (some (entryOf evalVariant variants i)) _ hnets' (by omega) (by rfl) _ hacc'
      · -- the new state satisfies the invariant at i + 1
        refine Or.inr ⟨i, rfl, rfl, by omega, ?_, ?_⟩
        · intro j hj
          rcases Nat.lt_succ_iff_lt_or_eq.mp hj with hj' | hj'
          · rcases hinv with ⟨_, _, hi0⟩ | ⟨k, hk1, hk2, hk3, hk4, hk5⟩
            · omega
            · have hbsc : bSc = some (sOf evalVariant variants k) := by
                rw [hsc, hk2]; rfl
              rw [hbsc] at hgt
              have hklt : sOf evalVariant variants k < sOf evalVariant variants i := by
                simpa [scGtBest] using hgt
              exact le_of_lt (lt_of_le_of_lt (hk4 j hj') hklt)
          · subst hj'; exact le_refl _
        · intro j hj
          rcases hinv with ⟨_, _, hi0⟩ | ⟨k, hk1, hk2, hk3, hk4, hk5⟩
          · omega
          · have hbsc : bSc = some (sOf evalVariant variants k) := by
              rw [hsc, hk2]; rfl
            rw [hbsc] at hgt
            have hklt : sOf evalVariant variants k < sOf evalVariant variants i := by
              simpa [scGtBest] using hgt
            exact lt_of_le_of_lt (hk4 j hj) hklt
    | false =>
      rw [if_neg (by simp)]
      rcases hinv with ⟨hb1, hb2, hi0⟩ | ⟨k, hk1, hk2, hk3, hk4, hk5⟩
      · exfalso
        rw [hsc, hb2] at hgt
        simp [scGtBest] at hgt
      · have hbsc : bSc = some (sOf evalVariant variants k) := by
          rw [hsc, hk2]; rfl
        rw [hbsc] at hgt
        simp only [scGtBest, decide_eq_false_iff_not] at hgt
        have hge : sOf evalVariant variants i ≤ sOf evalVariant variants k :=
          le_of_not_lt hgt
        apply ih (i + 1) bIdx bSc bRes _ hnets' (by omega) hsc _ hacc'
        refine Or.inr ⟨k, hk1, hk2, by omega, ?_, hk5⟩
        intro j hj
        rcases Nat.lt_succ_iff_lt_or_eq.mp hj with hj' | hj'
        · exact hk4 j hj'
        · subst hj'; exact hge

/-- Claim C3: for every nonempty sequence of variants, ranking returns a
`best_index` that is the first index attaining the maximal score — its score
is at or above every variant's score and strictly above every earlier one
(ties favour the first seen, since the loop compares with strict greater
than) — and the per-variant score is exactly the specified policy:
`ac_gain_db` when present, else `0.9 × tran_gain_db`, else 0, plus
`0.001 × (unity_bandwidth_hz / 1e6)` when unity bandwidth is present. -/
theorem C3_rank_first_argmax (evalVariant : ℕ → List Char → Except String RunResult)
    (variants : List (List Char)) (h : variants ≠ []) :
    (∀ r, score_result r = score_spec r) ∧
    ∃ k, (Orchestrator.optimize evalVariant variants).best_index = some k ∧
      (Orchestrator.optimize evalVariant variants).best_result =
        some (entryOf evalVariant variants k) ∧
      k < variants.length ∧
      (∀ j, j < variants.length →
        sOf evalVariant variants j ≤ sOf evalVariant variants k) ∧
      (∀ j, j < k → sOf evalVariant variants j < sOf evalVariant variants k) := by
  have hspec := optimizeGo_spec evalVariant variants variants 0 none none none []
    (List.drop_zero variants).symm (Nat.zero_le _) rfl (Or.inl ⟨rfl, rfl, rfl⟩) rfl
  refine ⟨score_result_eq_spec, ?_⟩
  rcases hspec.2 with ⟨_, _, hlen⟩ | ⟨k, hk1, hk2, hk3, hk4, hk5⟩
  · exact absurd (List.length_eq_zero.mp hlen) h
  · exact ⟨k, hk1, hk2, hk3, hk4, hk5⟩

/-- Witness for C3 on the specification's own example: variants scoring 12.0
and 6.0, first one wins. -/
theorem C3_witness :
    (["* a\n.end\n".toList, "* b\n.end\n".toList] : List (List Char)) ≠ [] ∧
      ((∀ r, score_result r = score_spec r) ∧
        ∃ k, (Orchestrator.optimize
            (fun i _ => if i = 0 then Except.ok { ac_gain_db := some 12 }
              else Except.ok { ac_gain_db := some 6 })
            ["* a\n.end\n".toList, "* b\n.end\n".toList]).best_index = some k ∧
          (Orchestrator.optimize
            (fun i _ => if i = 0 then Except.ok { ac_gain_db := some 12 }
              else Except.ok { ac_gain_db := some 6 })
            ["* a\n.end\n".toList, "* b\n.end\n".toList]).best_result =
            some (entryOf
              (fun i _ => if i = 0 then Except.ok { ac_gain_db := some 12 }
                else Except.ok { ac_gain_db := some 6 })
              ["* a\n.end\n".toList, "* b\n.end\n".toList] k) ∧
          k < (["* a\n.end\n".toList, "* b\n.end\n".toList] : List (List Char)).length ∧
          (∀ j, j < (["* a\n.end\n".toList, "* b\n.end\n".toList] : List (List Char)).length →
            sOf (fun i _ => if i = 0 then Except.ok { ac_gain_db := some 12 }
                else Except.ok { ac_gain_db := some 6 })
              ["* a\n.end\n".toList, "* b\n.end\n".toList] j ≤
            sOf (fun i _ => if i = 0 then Except.ok { ac_gain_db := some 12 }
                else Except.ok { ac_gain_db := some 6 })
              ["* a\n.end\n".toList, "* b\n.end\n".toList] k) ∧
          (∀ j, j < k →
            sOf (fun i _ => if i = 0 then Except.ok { ac_gain_db := some 12 }
                else Except.ok { ac_gain_db := some 6 })
              ["* a\n.end\n".toList, "* b\n.end\n".toList] j <
            sOf (fun i _ => if i = 0 then Except.ok { ac_gain_db := some 12 }
                else Except.ok { ac_gain_db := some 6 })
              ["* a\n.end\n".toList, "* b\n.end\n".toList] k)) :=
  ⟨by decide,
    C3_rank_first_argmax
      (fun i _ => if i = 0 then Except.ok { ac_gain_db := some 12 }
        else Except.ok { ac_gain_db := some 6 })
      ["* a\n.end\n".toList, "* b\n.end\n".toList] (by decide)⟩

/-- Claim C7: an exception raised while evaluating one variant yields, for
that variant, an outcome with `success = false` and the exception string as
its error, which scores 0; the batch is not aborted — `all_results` still
covers every variant, each entry being the evaluation of its own variant. -/
theorem C7_failure_isolated (evalVariant : ℕ → List Char → Except String RunResult)
    (variants : List (List Char)) (i : ℕ) (e : String)
    (hi : i < variants.length)
    (he : evalVariant i (variants.getD i []) = Except.error e) :
    (Orchestrator.optimize evalVariant variants).all_results.length = variants.length ∧
    ((Orchestrator.optimize evalVariant variants).all_results.getD i
        default).result.success = false ∧
    ((Orchestrator.optimize evalVariant variants).all_results.getD i
        default).result.error = some e ∧
    ((Orchestrator.optimize evalVariant variants).all_results.getD i default).score = 0 ∧
    (∀ j, j < variants.length →
      (Orchestrator.optimize evalVariant variants).all_results.getD j default =
        entryOf evalVariant variants j) := by
  have hspec := optimizeGo_spec evalVariant variants variants 0 none none none []
    (List.drop_zero variants).symm (Nat.zero_le _) rfl (Or.inl ⟨rfl, rfl, rfl⟩) rfl
  have hall : (Orchestrator.optimize evalVariant variants).all_results =
      (List.range variants.length).map (entryOf evalVariant variants) := hspec.1
  have hget : ∀ j, j < variants.length →
      (Orchestrator.optimize evalVariant variants).all_results.getD j default =
        entryOf evalVariant variants j := by
    intro j hj
    rw [hall, List.getD_eq_getElem?_getD, List.getElem?_map, List.getElem?_range hj]
    rfl
  have hres : resOf evalVariant variants i =
      { success := false, error := some e } := by
    rw [resOf, he]; rfl
  refine ⟨by rw [hall]; simp, ?_, ?_, ?_, hget⟩
  · rw [hget i hi]
    show (resOf evalVariant variants i).success = false
    rw [hres]
  · rw [hget i hi]
    show (resOf evalVariant variants i).error = some e
    rw [hres]
  · rw [hget i hi]
    show sOf evalVariant variants i = 0
    rw [sOf, hres]
    rfl

/-- Witness for C7 with a concrete failing evaluation among two variants. -/
theorem C7_witness :
    (0 : ℕ) < (["* a\n.end\n".toList, "* b\n.end\n".toList] : List (List Char)).length ∧
      (fun (i : ℕ) (_ : List Char) =>
          if i = 0 then (Except.error "sim failed" : Except String RunResult)
          else Except.ok { ac_gain_db := some 6 }) 0
        ((["* a\n.end\n".toList, "* b\n.end\n".toList] : List (List Char)).getD 0 []) =
        Except.error "sim failed" ∧
      ((Orchestrator.optimize
          (fun i _ => if i = 0 then (Except.error "sim failed" : Except String RunResult)
            else Except.ok { ac_gain_db := some 6 })
          ["* a\n.end\n".toList, "* b\n.end\n".toList]).all_results.length =
        (["* a\n.end\n".toList, "* b\n.end\n".toList] : List (List Char)).length ∧
       ((Orchestrator.optimize
          (fun i _ => if i = 0 then (Except.error "sim failed" : Except String RunResult)
            else Except.ok { ac_gain_db := some 6 })
          ["* a\n.end\n".toList, "* b\n.end\n".toList]).all_results.getD 0
            default).result.success = false ∧
       ((Orchestrator.optimize
          (fun i _ => if i = 0 then (Except.error "sim failed" : Except String RunResult)
            else Except.ok { ac_gain_db := some 6 })
          ["* a\n.end\n".toList, "* b\n.end\n".toList]).all_results.getD 0
            default).result.error = some "sim failed" ∧
       ((Orchestrator.optimize
          (fun i _ => if i = 0 then (Except.error "sim failed" : Except String RunResult)
            else Except.ok { ac_gain_db := some 6 })
          ["* a\n.end\n".toList, "* b\n.end\n".toList]).all_results.getD 0
            default).score = 0 ∧
       (∀ j, j < (["* a\n.end\n".toList, "* b\n.end\n".toList] : List (List Char)).length →
         (Orchestrator.optimize
            (fun i _ => if i = 0 then (Except.error "sim failed" : Except String RunResult)
              else Except.ok { ac_gain_db := some 6 })
            ["* a\n.end\n".toList, "* b\n.end\n".toList]).all_results.getD j default =
          entryOf
            (fun i _ => if i = 0 then (Except.error "sim failed" : Except String RunResult)
              else Except.ok { ac_gain_db := some 6 })
            ["* a\n.end\n".toList, "* b\n.end\n".toList] j)) :=
  ⟨by decide, by decide,
    C7_failure_isolated
      (fun i _ => if i = 0 then (Except.error "sim failed" : Except String RunResult)
        else Except.ok { ac_gain_db := some 6 })
      ["* a\n.end\n".toList, "* b\n.end\n".toList] 0 "sim failed" (by decide) (by decide)⟩

/-- The iteration loop aborts at the first timeout: if the first `a` workers
(from iteration index `it`) succeed and the worker at `it + a` times out,
the history gains exactly `a + 1` entries and ends with the terminal
timeout record. -/
theorem runGo_timeout (iterRes : ℕ → List Char → IterOutcome) :
    ∀ (a rem it : ℕ) (current best : List Char) (bestRes : Option ScoredResult)
      (hist : List HistEntry),
      a < rem →
      (∀ j, j < a → ∀ c, ∃ r, iterRes (it + j) c = IterOutcome.ok r) →
      (∀ c, iterRes (it + a) c = IterOutcome.timeout) →
      (runGo iterRes it rem current best bestRes hist).history.length =
          hist.length + a + 1 ∧
        (runGo iterRes it rem current best bestRes hist).history.getLast? =
          some (HistEntry.err "timeout" (it + a + 1)) := by
  intro a
  induction a with
  | zero =>
    intro rem it current best bestRes hist hrem _ ht
    cases rem with
    | zero => omega
    | succ rem' =>
      have ht' : iterRes it current = IterOutcome.timeout := by simpa using ht current
      simp only [runGo, ht']
      constructor
      · simp
      · rw [List.getLast?_concat]
  | succ a ih =>
    intro rem it current best bestRes hist hrem hok ht
    cases rem with
    | zero => omega
    | succ rem' =>
      obtain ⟨r, hr⟩ := hok 0 (Nat.succ_pos a) current
      rw [Nat.add_zero] at hr
      simp only [runGo, hr]
      have hres := ih rem' (it + 1)
        (runUpdate r current best bestRes).1 (runUpdate r current best bestRes).1
        (runUpdate r current best bestRes).2 (hist ++ [HistEntry.record r])
        (by omega)
        (fun j hj c => by
          obtain ⟨r', hr'⟩ := hok (j + 1) (by omega) c
          exact ⟨r', by rw [show it + 1 + j = it + (j + 1) by omega]; exact hr'⟩)
        (fun c => by rw [show it + 1 + a = it + (a + 1) by omega]; exact ht c)
      refine ⟨?_, ?_⟩
      · have h1 := hres.1
        simp only [List.length_append, List.length_cons, List.length_nil] at h1
        omega
      · have h2 := hres.2
        rw [show it + 1 + a = it + (a + 1) from by omega] at h2
        exact h2

/-- Claim C5: when the per-iteration worker of the first `k` iterations
succeeds and the worker of iteration `k` (0-based) exceeds the timeout, the
run terminates early without retry — the history has exactly `k + 1` entries,
no later iteration executes, its last entry is the terminal record with
error field `"timeout"` — and the run still finishes, returning the final
report. -/
theorem C5_timeout_aborts_run (iterRes : ℕ → List Char → IterOutcome)
    (baseNetlist : List Char) (maxIters k : ℕ) (hk : k < maxIters)
    (hok : ∀ j, j < k → ∀ c, ∃ r, iterRes j c = IterOutcome.ok r)
    (ht : ∀ c, iterRes k c = IterOutcome.timeout) :
    (Optimizer.run iterRes baseNetlist maxIters).history.length = k + 1 ∧
    (Optimizer.run iterRes baseNetlist maxIters).history.getLast? =
      some (HistEntry.err "timeout" (k + 1)) ∧
    ((Optimizer.run iterRes baseNetlist maxIters).history.getLast?).map
      HistEntry.errorField = some (some "timeout") := by
  have h := runGo_timeout iterRes k maxIters 0 baseNetlist baseNetlist none []
    hk (fun j hj c => by simpa using hok j hj c) (fun c => by simpa using ht c)
  refine ⟨by simpa using h.1, by simpa using h.2, ?_⟩
  have h2 : (Optimizer.run iterRes baseNetlist maxIters).history.getLast? =
      some (HistEntry.err "timeout" (k + 1)) := by simpa using h.2
  rw [h2]
  rfl

/-- Witness for C5: a worker that succeeds once and then times out, within a
two-iteration budget. -/
theorem C5_witness :
    (1 : ℕ) < 2 ∧
      ((Optimizer.run
          (fun j _ => if j = 0 then IterOutcome.ok default else IterOutcome.timeout)
          "* t\n.end\n".toList 2).history.length = 2 ∧
        (Optimizer.run
          (fun j _ => if j = 0 then IterOutcome.ok default else IterOutcome.timeout)
          "* t\n.end\n".toList 2).history.getLast? =
          some (HistEntry.err "timeout" 2) ∧
        ((Optimizer.run
          (fun j _ => if j = 0 then IterOutcome.ok default else IterOutcome.timeout)
          "* t\n.end\n".toList 2).history.getLast?).map HistEntry.errorField =
          some (some "timeout")) :=
  ⟨by decide,
    C5_timeout_aborts_run
      (fun j _ => if j = 0 then IterOutcome.ok default else IterOutcome.timeout)
      "* t\n.end\n".toList 2 1 (by decide)
      (fun j hj c => ⟨default, by
        have hj0 : j = 0 := by omega
        subst hj0
        rfl⟩)
      (fun c => rfl)⟩

/-- Witness for C10 with a concrete evaluator. -/
theorem C10_witness :
    Orchestrator.optimize (fun _ _ => Except.ok { success := true }) [] =
      { best_index := none, best_result := none, all_results := [] } :=
  C10_optimize_empty _

/-- Claim C6, counterexample: applying `build_ac_netlist` twice to a minimal
netlist does not yield the same text as applying it once — the second
application's strip leaves residual whitespace from the first insertion. -/
theorem C6_counterexample :
    (build_ac_netlist sampleNetlist sampleSignals).bind
        (fun t1 => build_ac_netlist t1 sampleSignals) ≠
      build_ac_netlist sampleNetlist sampleSignals := by
  with_unfolding_all decide

end EEsizer
